import Mathlib

/-!
Verification of the utility module `src/basic/tools.ts` of wx-calendar.

Pure functions of the source are embedded as Lean functions; the closure-held
counter of the once-emitter becomes explicit state passing; the callback
decision of the node-rect query becomes an `Except` value; the awaited tick
chain of `severalTicks` becomes a free-monad style program whose interaction
trace with the host scheduler is computed explicitly.

The module imports constants (`CALENDAR_PANELS`, `VIEWS`, `View`,
`FULL_LAYOUT`) from `src/basic/constants.ts`, which is not part of the
sources given; those are modelled from the specification where a concrete
value is needed, and left as parameters where the properties hold generically.
-/

/-- Embedding of `circularDiff` from `src/basic/tools.ts` (lines 72-77).

`CALENDAR_PANELS` is a constant of `constants.ts` (not among the given
sources); the specification quantifies over it ("For all integers `c` and
`CALENDAR_PANELS = N`"), so it is taken here as the parameter `panels`.

```
const half = Math.floor(CALENDAR_PANELS / 2);
if (idx < curr - half) idx = idx + CALENDAR_PANELS;
if (idx > curr + half) idx = idx - CALENDAR_PANELS;
return idx - curr;
```
-/
def circularDiff (panels : ℕ) (idx curr : ℤ) : ℤ :=
  let half : ℤ := ((panels / 2 : ℕ) : ℤ)
  let idx1 : ℤ := if idx < curr - half then idx + panels else idx
  let idx2 : ℤ := if idx1 > curr + half then idx1 - panels else idx1
  idx2 - curr

/-- C1: for every panel count `N`, current index `c` and target index `t` with
`t ∈ [c - N, c + N]`, the displacement `d = circularDiff t c` satisfies
`|d| ≤ ⌊N / 2⌋` and `c + d ≡ t (mod N)`. -/
theorem circularDiff_bounded_and_congruent (N : ℕ) (c t : ℤ)
    (hlo : c - N ≤ t) (hhi : t ≤ c + N) :
    |circularDiff N t c| ≤ ((N / 2 : ℕ) : ℤ) ∧
      (c + circularDiff N t c) % (N : ℤ) = t % (N : ℤ) := by
  unfold circularDiff
  simp only
  split_ifs with h1 h2 h2
  · constructor
    · rw [abs_le]; omega
    · have : c + (t + (N : ℤ) - (N : ℤ) - c) = t + (-1) * (N : ℤ) + (N : ℤ) := by ring
      omega
  · constructor
    · rw [abs_le]; omega
    · have heq : c + (t + (N : ℤ) - c) = t + (N : ℤ) * 1 := by ring
      rw [heq, Int.add_mul_emod_self_left]
  · constructor
    · rw [abs_le]; omega
    · have heq : c + (t - (N : ℤ) - c) = t + (N : ℤ) * (-1) := by ring
      rw [heq, Int.add_mul_emod_self_left]
  · constructor
    · rw [abs_le]; omega
    · have heq : c + (t - c) = t := by ring
      rw [heq]

/-- Concrete instance of C1 at `N = 3`, `c = 0`, `t = 2`: the wrap-around
displacement is taken and the bound holds. -/
theorem circularDiff_bounded_and_congruent_witness :
    |circularDiff 3 2 0| ≤ (((3 : ℕ) / 2 : ℕ) : ℤ) ∧
      (0 + circularDiff 3 2 0) % ((3 : ℕ) : ℤ) = 2 % ((3 : ℕ) : ℤ) :=
  circularDiff_bounded_and_congruent 3 0 2 (by decide) (by decide)

/-- Modelled from the spec: the ordered list `values(VIEWS)` of recognized
view names from `src/basic/constants.ts`, which is not among the given
sources. The recognized views are week, month and schedule (per `isView` in
`tools.ts`); the spec fixes the ordering by stating that an empty or
unrecognized name falls back "to position 0", i.e. to "the first recognized
view", while `tools.ts` makes that fallback the month view (`VIEWS.MONTH`,
`View.month`): hence the month view sits at position 0. -/
def VIEWS : List String := ["month", "week", "schedule"]

/-- Modelled from the spec: the `View` enum value of the week view, `1 <<
position of "week" in the ordered list` (the flag encoding is one bit per
view at its list position). -/
def View.week : ℕ := 2

/-- Modelled from the spec: the `View` enum value of the month view,
`1 << 0` since the month view is at position 0. -/
def View.month : ℕ := 1

/-- Modelled from the spec: the `View` enum value of the schedule view,
`1 << position of "schedule"`. -/
def View.schedule : ℕ := 4

/-- Embedding of JavaScript `Array.prototype.indexOf` on a list of strings:
the index of the first occurrence, `-1` when absent. Used by `viewFlag`
(`values(VIEWS).indexOf(inputView)`). -/
def jsIndexOf : List String → String → ℤ
  | [], _ => -1
  | a :: rest, s =>
    if a = s then 0
    else
      let r := jsIndexOf rest s
      if r < 0 then -1 else r + 1

/-- Embedding of `viewFlag` from `src/basic/tools.ts` (lines 222-226).
`view || VIEWS.MONTH` replaces the empty (falsy) string by `"month"`:

```
const inputView = view || VIEWS.MONTH;
const idx = values(VIEWS).indexOf(inputView as CalendarView);
return idx < 0 ? View.month : 1 << idx;
```
-/
def viewFlag (view : String) : ℕ :=
  let inputView := if view = "" then "month" else view
  let idx := jsIndexOf VIEWS inputView
  if idx < 0 then View.month else 2 ^ idx.toNat

/-- Embedding of `flagView` from `src/basic/tools.ts` (line 239):
`values(VIEWS)[Math.log2(flag)]`. When `flag` is not a power of two,
`Math.log2(flag)` is not an integer (or `-∞` at 0) and the array access
yields `undefined`, modelled as `none`; an out-of-range integer index also
yields `undefined`, which `List.get?` models directly. -/
def flagView (flag : ℕ) : Option String :=
  if 2 ^ Nat.log2 flag = flag then VIEWS.get? (Nat.log2 flag) else none

/-- Embedding of `isView` from `src/basic/tools.ts` (lines 232-233):
`flag === View.week || flag === View.month || flag === View.schedule`.
The source predicate takes `unknown`; integer arguments are the case the
spec speaks about, so the embedding takes an integer. -/
def isView (flag : ℤ) : Bool :=
  flag == (View.week : ℤ) || flag == (View.month : ℤ) || flag == (View.schedule : ℤ)

/-- C2: decoding the flag of a recognized view name yields that name back:
`flagView (viewFlag name) = name` for every name in the recognized list. -/
theorem flagView_viewFlag_roundtrip (name : String) (h : name ∈ VIEWS) :
    flagView (viewFlag name) = some name := by
  have h' : name = "month" ∨ name = "week" ∨ name = "schedule" := by
    simpa [VIEWS] using h
  rcases h' with rfl | rfl | rfl <;>
    simp [viewFlag, VIEWS, jsIndexOf, View.month, flagView, Nat.log2]

/-- Concrete instance of C2 at the name `"week"`. -/
theorem flagView_viewFlag_roundtrip_witness :
    flagView (viewFlag "week") = some "week" :=
  flagView_viewFlag_roundtrip "week" (by decide)

/-- C3: `viewFlag ""` and `viewFlag` of any unrecognized name both return
the flag of the first recognized view, `1 <<< 0 = 1`. -/
theorem viewFlag_default_first_view (s : String) (h : s ∉ VIEWS) :
    viewFlag s = 2 ^ 0 := by
  have hm : s ≠ "month" := by rintro rfl; exact h (by decide)
  have hw : s ≠ "week" := by rintro rfl; exact h (by decide)
  have hs : s ≠ "schedule" := by rintro rfl; exact h (by decide)
  by_cases he : s = ""
  · subst he; decide
  · have hidx : jsIndexOf VIEWS s = -1 := by
      simp [jsIndexOf, VIEWS, Ne.symm hm, Ne.symm hw, Ne.symm hs]
    simp [viewFlag, if_neg he, hidx, View.month]

/-- Concrete instances of C3 at `""` and `"bogus"`. -/
theorem viewFlag_default_first_view_witness :
    viewFlag "" = 2 ^ 0 ∧ viewFlag "bogus" = 2 ^ 0 :=
  ⟨viewFlag_default_first_view "" (by decide),
    viewFlag_default_first_view "bogus" (by decide)⟩

/-- C9: `isView` holds exactly at the flags of the recognized views — the
values `viewFlag` takes on the recognized name list — and is false
everywhere else on the integers, in particular at 0 and 8. -/
theorem isView_iff_flag_of_recognized_view (flag : ℤ) :
    (isView flag = true ↔ ∃ name ∈ VIEWS, ((viewFlag name : ℕ) : ℤ) = flag) ∧
      isView 0 = false ∧ isView 8 = false := by
  refine ⟨?_, by decide, by decide⟩
  constructor
  · intro h
    simp only [isView, Bool.or_eq_true, beq_iff_eq] at h
    rcases h with (rfl | rfl) | rfl
    · exact ⟨"week", by decide, by decide⟩
    · exact ⟨"month", by decide, by decide⟩
    · exact ⟨"schedule", by decide, by decide⟩
  · rintro ⟨name, hmem, rfl⟩
    have h' : name = "month" ∨ name = "week" ∨ name = "schedule" := by
      simpa [VIEWS] using hmem
    rcases h' with rfl | rfl | rfl <;> decide

/-- The layout-hide class token `LHCP` of `src/basic/tools.ts` (line 190). -/
def LHCP : String := "wc--hide-"

/-- Whether the token begins the character list (helper for the regex-test
model). -/
def listStarts : List Char → List Char → Bool
  | _, [] => true
  | [], _ :: _ => false
  | a :: as, b :: bs => a == b && listStarts as bs

/-- Whether the token occurs contiguously somewhere in the character list
(helper for the regex-test model). -/
def listHas : List Char → List Char → Bool
  | [], tok => listStarts [] tok
  | a :: rest, tok => listStarts (a :: rest) tok || listHas rest tok

/-- Embedding of ``new RegExp(`${tok}\s*`).test(cls)`` as used by
`addLayoutHideCls` and `hasLayoutArea`: the trailing `\s*` matches the empty
string, and area names contain no regex metacharacters, so the test is
exactly "the token occurs as a substring of `cls`". -/
def regexTest (cls tok : String) : Bool := listHas cls.data tok.data

/-- Embedding of `addLayoutHideCls` from `src/basic/tools.ts` (lines 205-209):

```
const reg = new RegExp(`${LHCP}${area}\\s*`);
if (reg.test(cls)) return cls;
return `${cls} ${LHCP}${area}`;
```
-/
def addLayoutHideCls (cls : String) (area : String) : String :=
  if regexTest cls (LHCP ++ area) then cls else cls ++ " " ++ LHCP ++ area

/-- Embedding of `hasLayoutArea` from `src/basic/tools.ts` (line 216):
``!new RegExp(`${LHCP}${area}\s*`).test(cls)``. -/
def hasLayoutArea (cls : String) (area : String) : Bool :=
  !(regexTest cls (LHCP ++ area))

/-- Embedding of JavaScript `Array.prototype.join(sep)`. -/
def joinSep (sep : String) : List String → String
  | [] => ""
  | x :: xs => xs.foldl (fun acc s => acc ++ sep ++ s) x

/-- Embedding of `layoutHideCls` from `src/basic/tools.ts` (lines 196-200).
`FULL_LAYOUT` is a constant of `constants.ts` (not among the given sources);
the spec describes it only as "the fixed full-area set", so it is taken here
as the parameter `full`:

```
if (!layout?.length) return '';
const hideAreas = FULL_LAYOUT.filter(item => !layout.includes(item));
return hideAreas.map(item => `${LHCP}${item}`).join(' ');
```
-/
def layoutHideCls (full : List String) (layout : List String) : String :=
  if layout.isEmpty then ""
  else
    joinSep " "
      ((full.filter (fun item => !layout.contains item)).map (fun item => LHCP ++ item))

theorem listStarts_nil (tok : List Char) : listStarts [] tok = (tok == []) := by
  cases tok <;> rfl

theorem listStarts_any_nil (l : List Char) : listStarts l [] = true := by
  cases l <;> rfl

theorem listStarts_self_append (t r : List Char) : listStarts (t ++ r) t = true := by
  induction t with
  | nil => cases r <;> rfl
  | cons a as ih => simp [listStarts, ih]

theorem listHas_append_self (x t : List Char) : listHas (x ++ t) t = true := by
  induction x with
  | nil =>
    cases t with
    | nil => rfl
    | cons a as =>
      have := listStarts_self_append (a :: as) []
      simp only [List.append_nil] at this
      simp [listHas, this]
  | cons c cs ih => simp [listHas, ih]

theorem listStarts_iff (tok l : List Char) :
    listStarts l tok = true ↔ ∃ r, l = tok ++ r := by
  induction tok generalizing l with
  | nil => simp [listStarts_any_nil]
  | cons b bs ih =>
    cases l with
    | nil => simp [listStarts]
    | cons a as =>
      simp only [listStarts, Bool.and_eq_true, beq_iff_eq, ih, List.cons_append]
      constructor
      · rintro ⟨rfl, r, rfl⟩; exact ⟨r, rfl⟩
      · rintro ⟨r, h⟩
        injection h with h1 h2
        exact ⟨h1, r, h2⟩

theorem listHas_iff (tok l : List Char) :
    listHas l tok = true ↔ ∃ s r, l = s ++ tok ++ r := by
  induction l with
  | nil =>
    simp only [listHas, listStarts_nil, beq_iff_eq]
    constructor
    · rintro rfl; exact ⟨[], [], rfl⟩
    · rintro ⟨s, r, h⟩
      rcases List.append_eq_nil.mp (List.append_eq_nil.mp h.symm).1 with ⟨-, h2⟩
      · exact h2.symm ▸ rfl
  | cons a as ih =>
    simp only [listHas, Bool.or_eq_true, listStarts_iff, ih]
    constructor
    · rintro (⟨r, h⟩ | ⟨s, r, h⟩)
      · exact ⟨[], r, by simp [h]⟩
      · exact ⟨a :: s, r, by simp [h]⟩
    · rintro ⟨s, r, h⟩
      cases s with
      | nil => exact Or.inl ⟨r, by simpa using h⟩
      | cons b bs =>
        injection h with h1 h2
        exact Or.inr ⟨bs, r, h2⟩

theorem regexTest_appended (cls sep tok : String) :
    regexTest (cls ++ sep ++ tok) tok = true := by
  unfold regexTest
  rw [String.data_append, String.data_append]
  exact listHas_append_self _ _

/-- C7: `addLayoutHideCls` is idempotent — adding an area's hide token a
second time leaves the class string unchanged, for every class string and
every area. -/
theorem addLayoutHideCls_idempotent (cls area : String) :
    addLayoutHideCls (addLayoutHideCls cls area) area = addLayoutHideCls cls area := by
  by_cases h : regexTest cls (LHCP ++ area) = true
  · have h1 : addLayoutHideCls cls area = cls := by rw [addLayoutHideCls, if_pos h]
    rw [h1, addLayoutHideCls, if_pos h]
  · have h1 : addLayoutHideCls cls area = cls ++ " " ++ (LHCP ++ area) := by
      rw [addLayoutHideCls, if_neg h, String.append_assoc]
    rw [h1, addLayoutHideCls, if_pos (regexTest_appended cls " " (LHCP ++ area))]

/-- C8: `hasLayoutArea cls area` is true exactly when the area's hide token
(the fixed token `LHCP` followed by the area name) does not occur in `cls`;
in particular it is false on any string `addLayoutHideCls` has added the
token to. -/
theorem hasLayoutArea_iff_token_absent (cls area : String) :
    (hasLayoutArea cls area = true ↔
      ¬ ∃ s r, cls.data = s ++ (LHCP ++ area).data ++ r) ∧
      hasLayoutArea (addLayoutHideCls cls area) area = false := by
  constructor
  · rw [hasLayoutArea, Bool.not_eq_eq_eq_not, Bool.not_true, ← Bool.not_eq_true,
      regexTest, listHas_iff]
  · rw [hasLayoutArea, Bool.not_eq_false']
    by_cases h : regexTest cls (LHCP ++ area) = true
    · rw [addLayoutHideCls, if_pos h]; exact h
    · rw [addLayoutHideCls, if_neg h, String.append_assoc]
      exact regexTest_appended cls " " (LHCP ++ area)

theorem filter_beq_singleton (l : List String) (a : String)
    (hnd : l.Nodup) (hmem : a ∈ l) : l.filter (fun x => x == a) = [a] := by
  induction l with
  | nil => cases hmem
  | cons b bs ih =>
    by_cases hba : b = a
    · subst hba
      have hnotin : b ∉ bs := (List.nodup_cons.mp hnd).1
      have hrest : bs.filter (fun x => x == b) = [] :=
        List.filter_eq_nil_iff.mpr fun x hx => by
          simp only [beq_iff_eq]
          rintro rfl; exact hnotin hx
      simp [List.filter_cons, hrest]
    · have hmem' : a ∈ bs := by
        rcases List.mem_cons.mp hmem with h | h
        · exact absurd h.symm hba
        · exact h
      have hrest := ih (List.nodup_cons.mp hnd).2 hmem'
      simp [List.filter_cons, hba, hrest]

/-- C6: over any duplicate-free full-area list with at least two areas,
`layoutHideCls` of the empty visible list is `""`, of the full list is `""`,
and of the full list minus one area is exactly that area's hide token. -/
theorem layoutHideCls_cases (full : List String) (area : String)
    (hnd : full.Nodup) (hmem : area ∈ full) (hlen : 1 < full.length) :
    layoutHideCls full [] = "" ∧ layoutHideCls full full = "" ∧
      layoutHideCls full (full.erase area) = LHCP ++ area := by
  refine ⟨by simp [layoutHideCls], ?_, ?_⟩
  · cases full with
    | nil => simp [layoutHideCls]
    | cons b bs =>
      rw [layoutHideCls, if_neg (by simp)]
      have hfil : (b :: bs).filter (fun item => !(b :: bs).contains item) = [] :=
        List.filter_eq_nil_iff.mpr fun x hx => by simp [hx]
      rw [hfil]
      rfl
  · have hne : ¬(full.erase area).isEmpty = true := by
      have h1 : (full.erase area).length = full.length - 1 := List.length_erase_of_mem hmem
      intro h
      rw [List.isEmpty_iff] at h
      rw [h] at h1
      simp at h1
      omega
    rw [layoutHideCls, if_neg hne]
    have hcongr : full.filter (fun item => !(full.erase area).contains item) =
        full.filter (fun x => x == area) := by
      apply List.filter_congr
      intro x hx
      by_cases hxa : x = area
      · subst hxa
        have hni : x ∉ full.erase x := List.Nodup.not_mem_erase hnd
        simp [hni]
      · have hin : x ∈ full.erase area := (List.Nodup.mem_erase_iff hnd).mpr ⟨hxa, hx⟩
        simp [hin, hxa]
    rw [hcongr, filter_beq_singleton full area hnd hmem]
    rfl

/-- Concrete instance of C6 over the three-area list `header, title, today`
with `title` excluded. -/
theorem layoutHideCls_cases_witness :
    layoutHideCls ["header", "title", "today"] [] = "" ∧
      layoutHideCls ["header", "title", "today"] ["header", "title", "today"] = "" ∧
      layoutHideCls ["header", "title", "today"]
        (["header", "title", "today"].erase "title") = LHCP ++ "title" :=
  layoutHideCls_cases ["header", "title", "today"] "title"
    (by decide) (by decide) (by decide)

/-- Embedding of the `emit` closure of `onceEmitter` from `src/basic/tools.ts`
(lines 176-187). The closure-held counter `emits` is passed explicitly; the
result pairs the new counter with the event fired on the host instance, if
any. `if (emits++) return` reads the old counter (0 is falsy), then
increments:

```
emit: function (...detail) {
  if (emits++) return;
  instance.triggerEvent(event, ...detail);
}
```
-/
def onceEmit (emits : ℕ) (detail : List String) : ℕ × Option (List String) :=
  (emits + 1, if emits = 0 then some detail else none)

/-- Embedding of the `cancel` closure of `onceEmitter` (`emits++`). -/
def onceCancel (emits : ℕ) : ℕ := emits + 1

/-- A call made on a once-emitter: `emit` with its argument list, or
`cancel`. -/
inductive EmitterOp where
  | emit (detail : List String)
  | cancel

/-- Runs a sequence of calls against a once-emitter whose counter starts at
`emits` (the source initializes `emits = 0`), returning the argument lists of
the underlying events actually fired, in order. -/
def runEmitter : ℕ → List EmitterOp → List (List String)
  | _, [] => []
  | n, EmitterOp.emit d :: rest =>
    ((onceEmit n d).2).toList ++ runEmitter (onceEmit n d).1 rest
  | n, EmitterOp.cancel :: rest => runEmitter (onceCancel n) rest

theorem runEmitter_pos (ops : List EmitterOp) :
    ∀ n : ℕ, n ≠ 0 → runEmitter n ops = [] := by
  induction ops with
  | nil => intro n _; rfl
  | cons op rest ih =>
    intro n hn
    cases op with
    | emit d =>
      rw [runEmitter]
      rw [onceEmit]
      simp only [if_neg hn, Option.toList_none, List.nil_append]
      exact ih (n + 1) (Nat.succ_ne_zero n)
    | cancel => exact ih (onceCancel n) (Nat.succ_ne_zero n)

/-- C4: over any sequence of calls on a fresh once-emitter, the underlying
event fires for the first `emit` call (with exactly its arguments) when no
`cancel` preceded it, and for nothing else: every later `emit` is a no-op,
and a `cancel` arriving first suppresses all emits. In particular at most
one event ever fires. -/
theorem onceEmitter_fires_at_most_once (ops : List EmitterOp) :
    runEmitter 0 ops =
        (match ops with
          | EmitterOp.emit d :: _ => [d]
          | _ => []) ∧
      (runEmitter 0 ops).length ≤ 1 := by
  have hmain : runEmitter 0 ops =
      (match ops with
        | EmitterOp.emit d :: _ => [d]
        | _ => []) := by
    cases ops with
    | nil => rfl
    | cons op rest =>
      cases op with
      | emit d =>
        rw [runEmitter, onceEmit]
        simp only [if_pos rfl, Option.toList_some]
        rw [runEmitter_pos rest 1 one_ne_zero]
        rfl
      | cancel =>
        rw [runEmitter]
        exact runEmitter_pos rest (onceCancel 0) (Nat.succ_ne_zero 0)
  refine ⟨hmain, ?_⟩
  rw [hmain]
  cases ops with
  | nil => decide
  | cons op rest => cases op <;> simp

/-- Embedding of the bounding-rect callback of `nodeRect` from
`src/basic/tools.ts` (lines 135-148): given the node list the host query
returned for `selector`, the promise is resolved or rejected:

```
if (rects.length) resolve(rects);
else reject(`view not found by selector ${selector}`);
```

Resolution is `Except.ok`, rejection `Except.error`; the rect values are
host objects, abstracted by the type parameter. -/
def nodeRectResult {α : Type} (selector : String) (results : List α) :
    Except String (List α) :=
  if results.length ≠ 0 then Except.ok results
  else Except.error ("view not found by selector " ++ selector)

/-- C5: the node-rect query rejects exactly when the selector matched zero
nodes, the rejection value is the plain string message naming the selector,
and on a non-empty match list it resolves with that list. -/
theorem nodeRect_rejects_iff_no_match {α : Type} (selector : String)
    (results : List α) :
    (∀ msg, nodeRectResult selector results = Except.error msg ↔
        results = [] ∧ msg = "view not found by selector " ++ selector) ∧
      (results ≠ [] → nodeRectResult selector results = Except.ok results) := by
  constructor
  · intro msg
    rw [nodeRectResult]
    by_cases h : results = []
    · subst h
      simp [eq_comm]
    · rw [if_pos (by simpa [List.length_eq_zero] using h)]
      simp [h]
  · intro h
    rw [nodeRectResult, if_pos (by simpa [List.length_eq_zero] using h)]

/-- Concrete instances of C5: an empty match list rejects with the message
naming the selector `".wc"`, a singleton match list resolves. -/
theorem nodeRect_rejects_iff_no_match_witness :
    nodeRectResult ".wc" ([] : List ℕ) =
        Except.error "view not found by selector .wc" ∧
      nodeRectResult ".wc" [7] = Except.ok [7] :=
  ⟨((nodeRect_rejects_iff_no_match ".wc" ([] : List ℕ)).1
      "view not found by selector .wc").mpr ⟨rfl, rfl⟩,
    (nodeRect_rejects_iff_no_match ".wc" [7]).2 (by decide)⟩

/-- A program interacting with the host tick scheduler: it is either done
(its promise resolves) or it registers one `wx.nextTick` callback and only
when the host fires that callback continues with the rest. `await
nextTick()` in the source is one `tick` layer: the continuation after the
`await` runs once the tick's promise — resolved inside the `wx.nextTick`
callback — has fired. -/
inductive TickProg : Type where
  | done
  | tick (next : Unit → TickProg)

/-- Embedding of `severalTicks` from `src/basic/tools.ts` (lines 98-102),
`while (n--) { await nextTick(); }`, for a nonnegative integer argument `n`
(the loop then runs `n` times, awaiting one tick per iteration before the
next iteration starts). -/
def severalTicks : ℕ → TickProg
  | 0 => TickProg.done
  | n + 1 => TickProg.tick fun _ => severalTicks n

/-- One interaction with the host scheduler: a tick delay is started
(callback registered), or a tick callback fires. -/
inductive TickEv where
  | register
  | fire
deriving DecidableEq

/-- The host scheduler's trace of a tick program: each `tick` layer starts
its delay, fires it, and only then runs the continuation; the trace ends
when the program is done. -/
def runTicks : TickProg → List TickEv
  | TickProg.done => []
  | TickProg.tick k => TickEv.register :: TickEv.fire :: runTicks (k ())

/-- C10: `severalTicks n` performs exactly `n` single-tick delays strictly
in sequence: its host trace is `n` repetitions of register-then-fire, so the
`(k+1)`-th delay is registered only after the `k`-th callback fired, and the
program then finishes (its promise resolves). -/
theorem severalTicks_n_sequential_ticks (n : ℕ) :
    runTicks (severalTicks n) =
        List.flatten (List.replicate n [TickEv.register, TickEv.fire]) ∧
      (runTicks (severalTicks n)).count TickEv.register = n := by
  have hmain : ∀ m : ℕ, runTicks (severalTicks m) =
      List.flatten (List.replicate m [TickEv.register, TickEv.fire]) := by
    intro m
    induction m with
    | zero => rfl
    | succ k ih => simp [severalTicks, runTicks, ih, List.replicate]
  refine ⟨hmain n, ?_⟩
  rw [hmain n]
  induction n with
  | zero => rfl
  | succ k ih => simp_all [List.replicate, List.count_cons]

/-- Concrete instances of C4: two emits then a cancel fire only the first
emit's arguments; a cancel arriving first suppresses a later emit. -/
theorem onceEmitter_fires_at_most_once_witness :
    runEmitter 0 [EmitterOp.emit ["x"], EmitterOp.emit ["y"], EmitterOp.cancel] =
        [["x"]] ∧
      runEmitter 0 [EmitterOp.cancel, EmitterOp.emit ["x"]] = [] :=
  ⟨(onceEmitter_fires_at_most_once
      [EmitterOp.emit ["x"], EmitterOp.emit ["y"], EmitterOp.cancel]).1,
    (onceEmitter_fires_at_most_once [EmitterOp.cancel, EmitterOp.emit ["x"]]).1⟩

/-- Concrete instance of C7 at the empty class string and the area
`"today"`. -/
theorem addLayoutHideCls_idempotent_witness :
    addLayoutHideCls (addLayoutHideCls "" "today") "today" =
      addLayoutHideCls "" "today" :=
  addLayoutHideCls_idempotent "" "today"

/-- Concrete instance of C8: after adding the `"today"` hide token the area
no longer counts as visible. -/
theorem hasLayoutArea_iff_token_absent_witness :
    hasLayoutArea (addLayoutHideCls "" "today") "today" = false :=
  (hasLayoutArea_iff_token_absent "" "today").2

/-- Concrete instance of C9 at the non-flag values 0 and 8. -/
theorem isView_iff_flag_of_recognized_view_witness :
    isView 0 = false ∧ isView 8 = false :=
  (isView_iff_flag_of_recognized_view 0).2

/-- Concrete instance of C10 at `n = 2`: two register/fire rounds in strict
alternation. -/
theorem severalTicks_n_sequential_ticks_witness :
    runTicks (severalTicks 2) =
      List.flatten (List.replicate 2 [TickEv.register, TickEv.fire]) :=
  (severalTicks_n_sequential_ticks 2).1
